import Mathlib

/-
Shallow embedding of the PsycheLifeApp chart projection and guest-share
engine (src/app.py, src/medical_utils.py, src/models.py).

Modelling conventions used throughout:
  * Dates are day numbers on a single timeline: `Int` where the code only
    ever holds midnight dates, `Rat` where the code can produce fractional
    instants (datetime arithmetic in prepare_chart_data).  The ISO string
    "YYYY-MM-DD..." ordering used by the code for sorting and grouping is
    order-isomorphic to this numeric model, and the `[:10]` date-part
    truncation corresponds to the floor function.
  * Python floats are modelled as exact rationals (`Rat`).
  * Machine clock instants for the guest-share store are minutes on the
    UTC timeline (`Int`).
  * Fallible operations return `Option`; a `none` that the source would
    turn into an uncaught exception is documented at the definition.
-/

/-! ## Character-level helpers (Python `str.lower`, `str.strip`, `\s`, `\d`) -/

/-- Python regex `\s` class restricted to ASCII, as used by `re` on these inputs. -/
def pySpace (c : Char) : Bool :=
  c == ' ' || c == '\t' || c == '\n' || c == '\r' || c == '\x0b' || c == '\x0c'

/-- ASCII lowering, the behaviour of Python `str.lower()` on the ASCII inputs
this code handles. -/
def lowChar (c : Char) : Char :=
  if 'A' ≤ c && c ≤ 'Z' then Char.ofNat (c.toNat + 32) else c

/-- Python `str.lower()` over the character list. -/
def pyLower (l : List Char) : List Char := l.map lowChar

/-- Python `str.strip()`: drop leading and trailing whitespace. -/
def pyStrip (l : List Char) : List Char :=
  (((l.dropWhile pySpace).reverse).dropWhile pySpace).reverse

/-- Numeric value of a digit run, as `int(...)` computes it. -/
def digitsVal (l : List Char) : Nat :=
  l.foldl (fun a c => a * 10 + (c.toNat - 48)) 0

/-- Boolean prefix test on character lists. -/
def listStartsWith : List Char → List Char → Bool
  | [], _ => true
  | _ :: _, [] => false
  | p :: ps, c :: cs => p == c && listStartsWith ps cs

/-! ## Duration Parser (`medical_utils.parse_duration`)

Source regex: `(\d+)\s*(day|week|month|year)s?`, searched left to right in the
lowered, stripped text.  At a given start position the digit run, the
whitespace run and the unit word are each forced (no backtracking can help:
after a maximal digit run the next character is not a digit, and after a
maximal whitespace run the next character is not whitespace), so `re.search`
is faithfully modelled by a per-position scan taking maximal runs. -/

inductive DurUnit where
  | day | week | month | year
deriving DecidableEq

/-- Characters of the unit word alternatives in the source regex. -/
def unitStr : DurUnit → List Char
  | .day => ['d', 'a', 'y']
  | .week => ['w', 'e', 'e', 'k']
  | .month => ['m', 'o', 'n', 't', 'h']
  | .year => ['y', 'e', 'a', 'r']

/-- Days per unit: month = 30 days, year = 365 days (documented approximation). -/
def unitDays : DurUnit → Nat
  | .day => 1
  | .week => 7
  | .month => 30
  | .year => 365

/-- Try to read one of the unit words at the head of the text (the trailing
optional `s?` does not affect the captured groups). -/
def unitAt (l : List Char) : Option DurUnit :=
  if listStartsWith (unitStr .day) l then some .day
  else if listStartsWith (unitStr .week) l then some .week
  else if listStartsWith (unitStr .month) l then some .month
  else if listStartsWith (unitStr .year) l then some .year
  else none

/-- Left-to-right scan for the first match of `(\d+)\s*(unit)s?`. -/
def scanMatch : List Char → Option (Nat × DurUnit)
  | [] => none
  | c :: rest =>
    if c.isDigit then
      match unitAt ((List.dropWhile pySpace (List.dropWhile Char.isDigit (c :: rest)))) with
      | some u => some (digitsVal (List.takeWhile Char.isDigit (c :: rest)), u)
      | none => scanMatch rest
    else scanMatch rest

/-- Embedding of `medical_utils.parse_duration`: empty/missing input yields `none`; otherwise
the first number-and-unit occurrence in the lowered, stripped text is turned
into a day count (the `timedelta` the source builds always holds a whole
number of days).  `none` is the normal no-match result; the function never
raises. -/
def parse_duration (s : String) : Option Nat :=
  if s = "" then none
  else
    match scanMatch (pyStrip (pyLower s.data)) with
    | some (n, u) => some (n * unitDays u)
    | none => none

/-- Local helper `get_days` defined inside the `life_chart` route: parsed day
count, or 0 for empty or unparseable text (a zero timedelta is falsy in
Python, and its `.days` is 0 as well, so both branches agree on 0). -/
def get_days (s : String) : Nat :=
  if s = "" then 0
  else
    match parse_duration s with
    | some d => d
    | none => 0

/-! ## Dose Normalizer (`medical_utils.get_unified_dose`)

Source regex: `[-+]?\d*\.\d+|\d+`, first match, converted with `float`.
At each position the first alternative (a signed decimal with mandatory
fractional part) is tried before the bare integer alternative; runs are
again forced, so a per-position scan is faithful. -/

/-- Try alternative `[-+]?\d*\.\d+` at the head of the text. -/
def matchSignedFrac (l : List Char) : Option Rat :=
  let sign : Rat × List Char :=
    match l with
    | '-' :: t => (-1, t)
    | '+' :: t => (1, t)
    | _ => (1, l)
  let ip := List.takeWhile Char.isDigit sign.2
  match List.dropWhile Char.isDigit sign.2 with
  | '.' :: l3 =>
    let fp := List.takeWhile Char.isDigit l3
    if fp = [] then none
    else some (sign.1 * ((digitsVal ip : Rat) + (digitsVal fp : Rat) / ((10 : Rat) ^ fp.length)))
  | _ => none

/-- Try alternative `\d+` at the head of the text. -/
def matchIntPart (l : List Char) : Option Rat :=
  let ds := List.takeWhile Char.isDigit l
  if ds = [] then none else some (digitsVal ds : Rat)

/-- Left-to-right scan for the first match of `[-+]?\d*\.\d+|\d+`. -/
def scanNum : List Char → Option Rat
  | [] => none
  | c :: rest =>
    match matchSignedFrac (c :: rest) with
    | some v => some v
    | none =>
      match matchIntPart (c :: rest) with
      | some v => some v
      | none => scanNum rest

/-- Embedding of `medical_utils.get_unified_dose(drug_name, dose_mg)`: the first numeral in
the dose text as a float, 0.0 for missing input or no numeral.  The
`drug_name` argument is unused, as in the source; the surrounding
`try/except` can never fire on string input. -/
def get_unified_dose (drug_name : String) (dose_mg : String) : Rat :=
  if dose_mg = "" then 0
  else
    match scanNum dose_mg.data with
    | some v => v
    | none => 0

/-! ## Data model for medication and clinical entries -/

/-- One step of a taper plan, as stored in the `taper_plan` JSON: the keys the
expander reads (`dose_mg`, `frequency`, `duration_text`; the unread `note` key
is omitted). -/
structure MedStep where
  dose_mg : String
  frequency : String
  duration_text : String
deriving DecidableEq

/-- Result of `json.loads` on a stored `taper_plan` string: either a parsed
list of step records, or `malformed` when `json.loads` raises (in which case
the expanders fall back to the standard path before emitting anything). -/
inductive TaperPlanJson where
  | malformed : TaperPlanJson
  | steps : List MedStep → TaperPlanJson
deriving DecidableEq

/-- Model of `models.MedicationEntry`, restricted to the fields the chart expanders
read.  `taper_plan = none` models both SQL NULL and an empty string (both are
falsy in the source guard `entry.is_tapering and entry.taper_plan`). -/
structure MedicationEntry where
  drug_name : String
  dose_mg : String
  frequency : String
  duration_text : String
  is_tapering : Bool
  taper_plan : Option TaperPlanJson
deriving DecidableEq

/-- A clinical entry (symptom / side effect / MSE finding), restricted to the
fields the projectors read.  For MSE entries the duration column is named
`duration` rather than `duration_text`; both are modelled by the single
`duration_text` field (the source reads whichever exists via `getattr`).
A nullable text column read through `or ''` is modelled as a plain `String`. -/
structure ClinicalEntry where
  name : String
  score_onset : Option Rat
  score_progression : Option Rat
  score_current : Option Rat
  duration_text : String
  note : String
deriving DecidableEq

/-- Embedding of `medical_utils.calculate_midpoint_date`: the instant halfway between two
instants (timedelta division by 2 is exact to microseconds; exact here). -/
def calculate_midpoint_date (start_date end_date : Rat) : Rat :=
  start_date + (end_date - start_date) / 2

namespace LifeChart

/-- A chart point dict produced inside the `life_chart` route
(dict keys `x`, `y`, `detail`, `phase` for clinical points; `x`, `y`, `detail`
for medication points, whose phase slot is unused).  Dates are whole days
because the route works on `date` objects and day-resolution `strftime`. -/
structure LPoint where
  x : Int
  y : Rat
  phase : String
  detail : String
deriving DecidableEq

/-- Taper branch of `build_med_points` (src/app.py lines 1640-1657): walk the
steps, fill `max(1, days)` daily points per step at the normalized dose of
the step, then advance the cursor by that same span. -/
def taperPoints (drug : String) : List MedStep → Int → List LPoint
  | [], _ => []
  | step :: rest, current_date =>
    ((List.range (max 1 (get_days step.duration_text))).map (fun (i : Nat) =>
      ⟨current_date + (i : Int), get_unified_dose drug step.dose_mg,
        "", "Freq: " ++ step.frequency ++ " (Tapering)"⟩))
      ++ taperPoints drug rest (current_date + (max 1 (get_days step.duration_text) : Nat))

/-- Standard branch of `build_med_points` (src/app.py lines 1661-1673):
`max(1, days)` daily points from the visit date onwards, all at the
normalized dose. -/
def standardMedPoints (entry : MedicationEntry) (v_date : Int) : List LPoint :=
  (List.range (max 1 (get_days entry.duration_text))).map (fun (i : Nat) =>
    ⟨v_date + (i : Int), get_unified_dose entry.drug_name entry.dose_mg,
      "", "Freq: " ++ entry.frequency⟩)

/-- Embedding of `build_med_points(entry, v_date)` from the `life_chart` route: per-day
expansion, taper plan first, standard logic as fallback.  When `json.loads`
raises on the stored plan (`TaperPlanJson.malformed`) no taper point has been
emitted yet, so the fallback output is exactly the standard output. -/
def build_med_points (entry : MedicationEntry) (v_date : Int) : List LPoint :=
  match (if entry.is_tapering then entry.taper_plan else none) with
  | some (.steps plan) => taperPoints entry.drug_name plan v_date
  | some .malformed => standardMedPoints entry v_date
  | none => standardMedPoints entry v_date

/-- Embedding of `build_clinical_points(entry, v_date, type_lbl)` from the `life_chart`
route (src/app.py lines 1619-1634): Onset at `v_date - days` when
`score_onset` is present, Progression at the day-truncated midpoint when
`score_progression` is present and `days > 0`, Current at `v_date` when
`score_current` is present.  The visit type is never consulted.  Adding
`timedelta(days=days/2)` to a `date` keeps only whole days, i.e. `days / 2`
in natural division. -/
def build_clinical_points (entry : ClinicalEntry) (v_date : Int) (type_lbl : String) :
    List LPoint :=
  let days := get_days entry.duration_text
  let start := if days ≠ 0 then v_date - (days : Int) else v_date
  (match entry.score_onset with
   | some v => [⟨start, v, "Onset", type_lbl ++ " Onset"⟩]
   | none => []) ++
  (match entry.score_progression with
   | some v =>
     if 0 < days then [⟨start + (days / 2 : Nat), v, "Progression", type_lbl ++ " Progression"⟩]
     else []
   | none => []) ++
  (match entry.score_current with
   | some v => [⟨v_date, v, "Current", type_lbl ++ " Current"⟩]
   | none => [])

/-- A visit as the `life_chart` route consumes it (here: the fields driving
symptom projection). -/
structure Visit where
  date : Int
  visit_type : String
  symptom_entries : List ClinicalEntry
deriving DecidableEq

/-- Per-visit symptom processing in the `life_chart` route: every symptom
entry goes through `build_clinical_points` with label `Symptom`, with no
check of `visit_type`. -/
def visit_symptom_points (v : Visit) : List LPoint :=
  (v.symptom_entries.map (fun s => build_clinical_points s v.date "Symptom")).flatten

end LifeChart

namespace PrepareChart

/-- A chart point dict as built inside `prepare_chart_data`: `x` is a datetime
(possibly mid-day, hence `Rat`), `y` is a nullable score, `phase` is present
on symptom points and absent on medication / side-effect / MSE points.  The
`visit_id`, `symptom_name`, `reported_on` and `detail` metadata slots are not
modelled (no claim reads them). -/
structure PPoint where
  x : Rat
  y : Option Rat
  phase : Option String
deriving DecidableEq

/-- Taper branch of the medication loop in `prepare_chart_data` (src/app.py
lines 1393-1410): ONE point per step at the cursor date, then the cursor
advances by the parsed duration only when that duration is truthy (a missing
or zero `timedelta` leaves the cursor in place). -/
def taperLoop (drug : String) : List MedStep → Rat → List PPoint
  | [], _ => []
  | step :: rest, current_date =>
    ⟨current_date, some (get_unified_dose drug step.dose_mg), none⟩ ::
      taperLoop drug rest
        (match parse_duration step.duration_text with
         | some d => if d ≠ 0 then current_date + (d : Rat) else current_date
         | none => current_date)

/-- Medication processing for one entry in `prepare_chart_data`: the taper
branch when `is_tapering` and a plan parse, otherwise (including a
`json.loads` failure, which is caught before any point is emitted) the
standard logic emitting a single point at the visit date (src/app.py lines
1412-1414). -/
def med_points (entry : MedicationEntry) (v_date : Rat) : List PPoint :=
  match (if entry.is_tapering then entry.taper_plan else none) with
  | some (.steps plan) => taperLoop entry.drug_name plan v_date
  | some .malformed => [⟨v_date, some (get_unified_dose entry.drug_name entry.dose_mg), none⟩]
  | none => [⟨v_date, some (get_unified_dose entry.drug_name entry.dose_mg), none⟩]

/-- Symptom processing for one entry in `prepare_chart_data` (src/app.py lines
1328-1370): on a `First` visit, Onset / Progression / Current points at
`visit_date - duration`, the exact midpoint, and `visit_date`; on any other
visit type a single Current point.  Points whose score is null are dropped. -/
def symptom_points (entry : ClinicalEntry) (visit_date : Rat) (visit_type : String) :
    List PPoint :=
  let pts : List PPoint :=
    if visit_type = "First" then
      let duration : Rat := ((parse_duration entry.duration_text).getD 0 : Nat)
      let onset := visit_date - duration
      let mid := calculate_midpoint_date onset visit_date
      [⟨onset, entry.score_onset, some "Onset"⟩,
       ⟨mid, entry.score_progression, some "Progression"⟩,
       ⟨visit_date, entry.score_current, some "Current"⟩]
    else
      [⟨visit_date, entry.score_current, some "Current"⟩]
  pts.filter (fun p => p.y != none)

end PrepareChart

/-! ## Shared accumulator machinery

Python dicts preserve insertion order; a dict keyed by dates accumulating a
list per key is modelled as an association list in key-insertion order, and a
dict holding a single overwritten value per key likewise. -/

/-- Append one element at a key, creating the key at the end on first use
(`if k not in d: d[k] = []` followed by `d[k].append(e)`). -/
def appendAt {α : Type} : List (Int × List α) → Int → α → List (Int × List α)
  | [], k, e => [(k, [e])]
  | (k0, l0) :: rest, k, e =>
    if k0 = k then (k0, l0 ++ [e]) :: rest else (k0, l0) :: appendAt rest k e

/-- Dict lookup with `[]` default. -/
def lookupAcc {α : Type} : List (Int × List α) → Int → List α
  | [], _ => []
  | (k0, l0) :: rest, k => if k0 = k then l0 else lookupAcc rest k

/-- Overwrite one value at a key, creating the key at the end on first use
(`d[k] = v`). -/
def setAt {α : Type} : List (Int × α) → Int → α → List (Int × α)
  | [], k, v => [(k, v)]
  | (k0, v0) :: rest, k, v =>
    if k0 = k then (k0, v) :: rest else (k0, v0) :: setAt rest k v

/-- Dict lookup returning `none` for an absent key. -/
def lookupOpt {α : Type} : List (Int × α) → Int → Option α
  | [], _ => none
  | (k0, v0) :: rest, k => if k0 = k then some v0 else lookupOpt rest k

/-- Stable insertion sort by an integer key (`sorted` / `.sort` in the source
act on ISO date strings, whose lexicographic order coincides with the day
order). -/
def insertByKey {α : Type} (key : α → Int) (p : α) : List α → List α
  | [] => [p]
  | q :: rest => if key p ≤ key q then p :: q :: rest else q :: insertByKey key p rest

/-- Insertion sort driver. -/
def sortByKey {α : Type} (key : α → Int) : List α → List α
  | [] => []
  | p :: rest => insertByKey key p (sortByKey key rest)

/-- Python `round(x, 2)` (half-to-even rounding, modelled exactly on rationals). -/
def round2 (q : Rat) : Rat :=
  let y := 100 * q
  let f := ⌊y⌋
  let r := y - (f : Rat)
  ((if r < 1/2 then f else if 1/2 < r then f + 1 else if f % 2 = 0 then f else f + 1 : Int) : Rat)
    / 100

namespace PrepareChart

/-- Flattened iteration order of `for item_name, points in data_dict.items():
for point in points:`. -/
def pairs (data : List (String × List PPoint)) : List (String × PPoint) :=
  (data.map (fun np => np.2.map (fun p => (np.1, p)))).flatten

/-- The `date_breakdown` dict: every point with a non-null value contributes
a `(name, score)` record under its date key (the `[:10]` date part of `x`,
i.e. the floor of the instant). -/
def dateBreakdown (ps : List (String × PPoint)) : List (Int × List (String × Rat)) :=
  ps.foldl
    (fun m np =>
      match np.2.y with
      | some v => appendAt m ⌊np.2.x⌋ (np.1, v)
      | none => m)
    []

/-- The `date_phases` dict: every point carrying a phase overwrites the phase
stored under its date key, so the last contributor wins. -/
def datePhases (ps : List (String × PPoint)) : List (Int × String) :=
  ps.foldl
    (fun m np =>
      match np.2.phase with
      | some p => setAt m ⌊np.2.x⌋ p
      | none => m)
    []

/-- A unified point (dict keys `x`, `y`, `breakdown`, `phase`; the constant
`symptom_name` slot and the `visit_id` / `reported_on` metadata are not
modelled). -/
structure UPoint where
  x : Int
  y : Rat
  breakdown : List (String × Rat)
  phase : Option String
deriving DecidableEq

/-- Embedding of `calculate_unified(data_dict, label, color)` from `prepare_chart_data`
(src/app.py lines 1252-1315): group contributions by date, and for each date
(in ascending order, skipping empty groups) emit the rounded average with the
full breakdown and the remembered phase; `None` when nothing contributed.
The chart-styling fields of the returned dataset are not modelled. -/
def calculate_unified (data : List (String × List PPoint)) : Option (List UPoint) :=
  let ps := pairs data
  let db := dateBreakdown ps
  let dp := datePhases ps
  let unified := (sortByKey (fun kd => kd.1) db).filterMap (fun kd =>
    if kd.2 = [] then none
    else some ⟨kd.1, round2 (((kd.2.map (fun nv => nv.2)).sum) / (kd.2.length : Rat)),
               kd.2, lookupOpt dp kd.1⟩)
  if unified = [] then none else some unified

end PrepareChart

namespace GuestShareView

/-- One item of a stored guest payload as `guest_share_view` reads it: the
`name` / `cat` label, the integer score, the optional phase and the explicit
date (all payloads written by the current guest routes carry a date, so the
legacy phase-offset fallback path is never taken and is not modelled). -/
structure GItem where
  name : String
  score : Rat
  phase : Option String
  date : Int
deriving DecidableEq

/-- A unified point built by `guest_share_view` (`x`, `y`, `phase`,
`breakdown`; constant metadata slots are not modelled). -/
structure GUPoint where
  x : Int
  y : Rat
  phase : String
  breakdown : List (String × Rat)
deriving DecidableEq

/-- The date grouping `date_groups` of `calculate_unified` in
`guest_share_view`. -/
def dateGroups (items : List GItem) : List (Int × List GItem) :=
  items.foldl (fun m it => appendAt m it.date it) []

/-- Phase label for one group: the shared phase if the set of phases (missing
phases defaulting to `"Current"`) is a singleton, otherwise `"Mixed"`. -/
def phaseLabel (group : List GItem) : String :=
  match (group.map (fun i => i.phase.getD "Current")).dedup with
  | [p] => p
  | _ => "Mixed"

/-- Embedding of `calculate_unified(items, label, color)` from `guest_share_view`
(src/app.py lines 2546-2601): `None` on an empty item list, otherwise one
point per date group with the rounded average, the breakdown and the
mixed-aware phase label, sorted by date. -/
def calculate_unified (items : List GItem) : Option (List GUPoint) :=
  if items = [] then none
  else
    some (sortByKey (fun p => p.x)
      ((dateGroups items).map (fun kg =>
        ⟨kg.1,
         round2 ((kg.2.map (fun i => i.score)).sum / (kg.2.length : Rat)),
         phaseLabel kg.2,
         kg.2.map (fun i => (i.name, i.score))⟩)))

end GuestShareView

/-! ## Guest Share Store (`models.GuestShare`, routes `guest_both` /
`guest_lifechart` / `guest_share_view`)

Clock instants are minutes on the UTC timeline.  `guest_both` stores
`expires_at = now_utc + 30` minutes.  `GuestShare.is_expired` compares the
stored expiry against `datetime.utcnow() + timedelta(hours=5, minutes=30)`,
i.e. against `now_utc + 330` minutes. -/

namespace GuestStore

/-- Model of a `models.GuestShare` row (`created_at` is never read back). -/
structure GuestShare where
  token : String
  data_json : String
  expires_at : Int
deriving DecidableEq

/-- The guest-share table. -/
abbrev Store := List GuestShare

/-- Embedding of `GuestShare.is_expired` (src/models.py lines 175-178): compares the stored
expiry (written as naive UTC) against IST now, a clock 330 minutes ahead of
the UTC clock used at creation. -/
def is_expired (g : GuestShare) (now_utc : Int) : Bool :=
  g.expires_at < now_utc + 330

/-- Share creation in `guest_both` (src/app.py lines 2427-2436): a fresh token
with `expires_at = now + 30 minutes` (UTC), appended to the table. -/
def create (st : Store) (now_utc : Int) (payload : String) (token : String) : Store :=
  st ++ [⟨token, payload, now_utc + 30⟩]

/-- Outcome of `guest_share_view`: the 404 "Link invalid" page, the 410
expired page, or the rendered payload. -/
inductive ResolveResult where
  | notFound : ResolveResult
  | expired : ResolveResult
  | payload : String → ResolveResult
deriving DecidableEq

/-- Embedding of `GuestShare.query.filter_by(token=token).first()`. -/
def findByToken (st : Store) (tok : String) : Option GuestShare :=
  st.find? (fun g => g.token == tok)

/-- Embedding of `db.session.delete(entry)`: remove the first row with the token (the DB
unique constraint on `token` makes it the only one). -/
def deleteByToken : Store → String → Store
  | [], _ => []
  | g :: rest, tok => if g.token = tok then rest else g :: deleteByToken rest tok

/-- Embedding of `guest_share_view(token)` (src/app.py lines 2473-2481): 404 when the token
is unknown; when `is_expired`, delete the row and return 410; otherwise serve
the stored payload (the `json.loads`/`json.dumps` round trip is the identity
on the stored text). -/
def resolve (st : Store) (tok : String) (now_utc : Int) : ResolveResult × Store :=
  match findByToken st tok with
  | none => (.notFound, st)
  | some g =>
    if is_expired g now_utc then (.expired, deleteByToken st tok)
    else (.payload g.data_json, st)

end GuestStore

namespace GuestBoth

/-- Duration handling for one symptom row in `guest_both` (src/app.py lines
2346-2351): an empty duration gets the 14-day default; otherwise
`parse_duration` is called inside a `try` block — but a failed parse returns
`None` rather than raising, so the `except` fallback never fires and `None`
flows out. -/
def symptom_delta (dur_text : String) : Option Nat :=
  if dur_text = "" then some 14
  else parse_duration dur_text

/-- Onset / progression / current dates for one guest symptom row (src/app.py
lines 2353-2356).  `none` models the uncaught `TypeError` the source raises
at `today - delta` when `symptom_delta` produced `None`, aborting the whole
guest submission. -/
def symptom_dates (today : Int) (dur_text : String) : Option (Int × Int × Int) :=
  match symptom_delta dur_text with
  | none => none
  | some d =>
    let d_onset := today - (d : Int)
    let total_days := today - d_onset
    let d_prog := d_onset + total_days / 2
    some (d_onset, d_prog, today)

end GuestBoth

/-! ## Concrete instances used by the claim theorems -/

/-- Non-tapering entry with dose "50 mg" and duration "3 days". -/
def medC2 : MedicationEntry := ⟨"Sertraline", "50 mg", "1-0-1", "3 days", false, none⟩

/-- Tapering entry with steps 50 mg for 2 days then 25 mg for 2 days. -/
def medC3 : MedicationEntry :=
  ⟨"Diazepam", "50 mg", "", "2 days", true,
    some (.steps [⟨"50 mg", "", "2 days"⟩, ⟨"25 mg", "", "2 days"⟩])⟩

/-- A follow-up visit owning one symptom entry that carries an onset score. -/
def visitC4 : LifeChart.Visit :=
  ⟨0, "Follow-up", [⟨"Insomnia", some 3, none, some 8, "10 days", ""⟩]⟩

/-- First-visit entry of the spec example: onset 2, progression 5, current 8,
duration "10 days". -/
def entryC10 : ClinicalEntry := ⟨"Low mood", some 2, some 5, some 8, "10 days", ""⟩

/-- Total day span of a taper plan under the life-chart expander: each step
occupies `max 1 days`. -/
def totalTaperDays (plan : List MedStep) : Nat :=
  (plan.map (fun s => max 1 (get_days s.duration_text))).sum

/-- Keys of an accumulator map, in insertion order. -/
def keysOf {α : Type} (m : List (Int × List α)) : List Int := m.map (fun kl => kl.1)

/-- Contributions (name, value) of all points with a value on a given date. -/
def PrepareChart.contribsAt (ps : List (String × PrepareChart.PPoint)) (d : Int) :
    List (String × Rat) :=
  ps.filterMap (fun np =>
    match np.2.y with
    | some v => if ⌊np.2.x⌋ = d then some (np.1, v) else none
    | none => none)

/-- All contributions (name, value) of points carrying a value, any date. -/
def PrepareChart.contribPairs (ps : List (String × PrepareChart.PPoint)) :
    List (String × Rat) :=
  ps.filterMap (fun np => np.2.y.map (fun v => (np.1, v)))

/-- Phase of the last contributing point carrying a phase on a given date
(the overwrite semantics of the `date_phases` dict). -/
def PrepareChart.lastPhaseAt (ps : List (String × PrepareChart.PPoint)) (d : Int) :
    Option String :=
  ps.foldl
    (fun acc np =>
      match np.2.phase with
      | some p => if ⌊np.2.x⌋ = d then some p else acc
      | none => acc)
    none

/-- The A / B example data of the Unified Averager specification. -/
def abData : List (String × List PrepareChart.PPoint) :=
  [("A", [⟨0, some 4, none⟩]), ("B", [⟨0, some 6, none⟩])]

/-- Items of a guest payload lying on one calendar date (the contents of one
`date_groups` bucket). -/
def GuestShareView.itemsAt (items : List GuestShareView.GItem) (d : Int) :
    List GuestShareView.GItem :=
  items.filterMap (fun it => if it.date = d then some it else none)

/-- Guest payload items with two phases sharing one date. -/
def gMix : List GuestShareView.GItem :=
  [⟨"A", 4, some "Onset", 0⟩, ⟨"B", 6, some "Current", 0⟩]

/-- The text contains a number-then-unit occurrence of the source regex
`(\d+)\s*(day|week|month|year)s?`: some position starts a non-empty digit
run followed by optional whitespace and a unit word. -/
def HasDurationPattern (l : List Char) : Prop :=
  ∃ (pre ds sp tl : List Char) (u : DurUnit),
    l = pre ++ (ds ++ (sp ++ (unitStr u ++ tl))) ∧ ds ≠ [] ∧
    (∀ c ∈ ds, c.isDigit = true) ∧ (∀ c ∈ sp, pySpace c = true)

/-! ## Claim theorems -/

/-- C1 (code bug): resolving a guest share immediately after creating it (0
and again 29 minutes after creation, both strictly inside the 30-minute
window) does not return the stored payload: because `create` stamps the
expiry from the UTC clock while `is_expired` compares it against an IST
clock 330 minutes ahead, the entry is already "expired" at birth, so the
round trip fails with the Expired outcome and the entry is deleted. -/
theorem claim_C1_guest_share_roundtrip :
    GuestStore.resolve (GuestStore.create [] 0 "chart-payload" "tok") "tok" 0
      = (GuestStore.ResolveResult.expired, []) ∧
    (GuestStore.resolve (GuestStore.create [] 0 "chart-payload" "tok") "tok" 29).1
      = GuestStore.ResolveResult.expired ∧
    GuestStore.ResolveResult.expired ≠ GuestStore.ResolveResult.payload "chart-payload" := by
  refine ⟨by decide, by decide, by decide⟩

/-- C6 (code bug): a non-empty unparseable duration on a guest symptom row is
a normal no-match result for the Duration Parser, yet the guest projection
aborts on it: `guest_both` only guards the `parse_duration` call itself with
`try/except`, so the `None` result flows into `today - delta` and raises an
uncaught `TypeError` (modelled by the `none` outcome), instead of recovering
to a default.  An empty duration does recover to the 14-day default. -/
theorem claim_C6_parse_failure_recovery :
    parse_duration "soon" = none ∧
    GuestBoth.symptom_dates 0 "soon" = none ∧
    GuestBoth.symptom_dates 0 "" = some (-14, -7, 0) := by
  refine ⟨by decide, by decide, by decide⟩

/-- C10 (confirmed): for the First-visit entry with onset 2, progression 5,
current 8 and duration "10 days", both projector implementations emit exactly
the three points (D−10, 2, Onset), (D−5, 5, Progression), (D, 8, Current). -/
theorem claim_C10_first_visit_example :
    ∀ (D : Rat) (Di : Int),
      PrepareChart.symptom_points entryC10 D "First"
        = [⟨D - 10, some 2, some "Onset"⟩,
           ⟨D - 5, some 5, some "Progression"⟩,
           ⟨D, some 8, some "Current"⟩] ∧
      LifeChart.build_clinical_points entryC10 Di "Symptom"
        = [⟨Di - 10, 2, "Onset", "Symptom Onset"⟩,
           ⟨Di - 5, 5, "Progression", "Symptom Progression"⟩,
           ⟨Di, 8, "Current", "Symptom Current"⟩] := by
  intro D Di
  have h10 : parse_duration "10 days" = some 10 := by decide
  have hg : get_days "10 days" = 10 := by decide
  constructor
  · simp only [PrepareChart.symptom_points, entryC10, calculate_midpoint_date, h10,
      Option.getD_some, List.filter]
    simp only [show ∀ q : Rat, (some q != none) = true from fun q => rfl,
      List.cons.injEq, PrepareChart.PPoint.mk.injEq]
    norm_num
    ring
  · simp only [LifeChart.build_clinical_points, entryC10, hg]
    norm_num
    exact ⟨by decide, ⟨by omega, by decide⟩, by decide⟩

/-- C2 counterexample: the non-tapering medication path of
`prepare_chart_data` (also cited by the claim) emits a single point at the
visit date for dose "50 mg", duration "3 days" — not the claimed
`max(1, days) = 3` points. -/
theorem claim_C2_counterexample :
    PrepareChart.med_points medC2 0 = [⟨0, some 50, none⟩] ∧
    (PrepareChart.med_points medC2 0).length = 1 ∧
    max 1 (get_days medC2.duration_text) = 3 ∧ (1 : Nat) ≠ 3 := by
  refine ⟨by decide, by decide, by decide, by decide⟩

/-- C3 counterexample: the tapering medication path of `prepare_chart_data`
(also cited by the claim) emits one point per step — here (D, 50) and
(D+2, 25) — not the claimed four daily points at D, D+1, D+2, D+3. -/
theorem claim_C3_counterexample :
    PrepareChart.med_points medC3 0 = [⟨0, some 50, none⟩, ⟨2, some 25, none⟩] ∧
    (PrepareChart.med_points medC3 0).length = 2 ∧ (2 : Nat) ≠ 4 := by
  have h2 : parse_duration "2 days" = some 2 := by decide
  have d50 : get_unified_dose "Diazepam" "50 mg" = 50 := by decide
  have d25 : get_unified_dose "Diazepam" "25 mg" = 25 := by decide
  have hlist : PrepareChart.med_points medC3 0 = [⟨0, some 50, none⟩, ⟨2, some 25, none⟩] := by
    simp only [PrepareChart.med_points, medC3, if_true]
    rw [PrepareChart.taperLoop.eq_def]
    simp only [h2, d50, d25]
    norm_num
    rw [PrepareChart.taperLoop.eq_def]
    simp only [h2, d50, d25]
    norm_num
    rw [PrepareChart.taperLoop.eq_def]
  exact ⟨hlist, by rw [hlist]; rfl, by decide⟩

/-- C4 counterexample: `build_clinical_points` never consults the visit type,
so a Follow-up visit whose symptom entry carries an onset score yields an
Onset point in the `life_chart` route — two points instead of the claimed
single Current point. -/
theorem claim_C4_counterexample :
    LifeChart.visit_symptom_points visitC4
      = [⟨-10, 3, "Onset", "Symptom Onset"⟩, ⟨0, 8, "Current", "Symptom Current"⟩] ∧
    visitC4.visit_type = "Follow-up" ∧
    (LifeChart.visit_symptom_points visitC4).length = 2 ∧ (2 : Nat) ≠ 1 := by
  refine ⟨by decide, by decide, by decide, by decide⟩

/-- C5 counterexample: `calculate_unified` in `prepare_chart_data` keeps the
phase of the last contributing point instead of a "mixed" sentinel: a date
group containing an Onset point and a Current point comes out labelled
"Current". -/
theorem claim_C5_counterexample :
    PrepareChart.calculate_unified
        [("A", [⟨0, some 4, some "Onset"⟩]), ("B", [⟨0, some 6, some "Current"⟩])]
      = some [⟨0, 5, [("A", 4), ("B", 6)], some "Current"⟩] ∧
    some "Current" ≠ some "Mixed" ∧ ("Onset" : String) ≠ "Current" := by
  refine ⟨?_, by decide, by decide⟩
  simp only [PrepareChart.calculate_unified, PrepareChart.pairs, PrepareChart.dateBreakdown,
    PrepareChart.datePhases, appendAt, setAt, lookupOpt, sortByKey, insertByKey, round2,
    List.map_cons, List.map_nil, List.flatten, List.foldl_cons, List.foldl_nil,
    List.filterMap_cons, List.filterMap_nil, List.append_nil, List.nil_append,
    List.cons_append, List.singleton_append, List.sum_cons, List.sum_nil, List.length_cons,
    List.length_nil, Int.floor_zero]
  norm_num [List.cons_ne_nil]

/-- C8 counterexample: the unified value is the average rounded to two
decimals, not the exact arithmetic mean: three contributions 0, 0, 1 on one
date produce y = 0.33 ≠ 1/3. -/
theorem claim_C8_counterexample :
    PrepareChart.calculate_unified
        [("A", [⟨0, some 0, none⟩]), ("B", [⟨0, some 0, none⟩]), ("C", [⟨0, some 1, none⟩])]
      = some [⟨0, 33/100, [("A", 0), ("B", 0), ("C", 1)], none⟩] ∧
    ((0 : Rat) + 0 + 1) / 3 = 1/3 ∧ (33/100 : Rat) ≠ 1/3 := by
  have hf : (⌊(100 : Rat)/3⌋ : Int) = 33 := by
    rw [show ((100 : Rat)/3) = (((100 : Int) : Rat)/((3 : Nat) : Rat)) by norm_num,
      Rat.floor_intCast_div_natCast]
    decide
  refine ⟨?_, by norm_num, by norm_num⟩
  simp only [PrepareChart.calculate_unified, PrepareChart.pairs, PrepareChart.dateBreakdown,
    PrepareChart.datePhases, appendAt, setAt, lookupOpt, sortByKey, insertByKey, round2,
    List.map_cons, List.map_nil, List.flatten, List.foldl_cons, List.foldl_nil,
    List.filterMap_cons, List.filterMap_nil, List.append_nil, List.nil_append,
    List.cons_append, List.singleton_append, List.sum_cons, List.sum_nil, List.length_cons,
    List.length_nil, Int.floor_zero]
  norm_num [hf, List.cons_ne_nil]

/-- Dates emitted by the life-chart taper walk are exactly the consecutive
days from the start date across the whole plan: no gaps and no overlaps. -/
theorem taperPoints_dates (drug : String) (plan : List MedStep) :
    ∀ D : Int, (LifeChart.taperPoints drug plan D).map (fun p => p.x)
      = (List.range (totalTaperDays plan)).map (fun (i : Nat) => D + (i : Int)) := by
  induction plan with
  | nil =>
    intro D
    rw [LifeChart.taperPoints.eq_def]
    simp [totalTaperDays]
  | cons s rest ih =>
    intro D
    rw [LifeChart.taperPoints.eq_def]
    simp only [totalTaperDays, List.map_cons, List.sum_cons, List.range_add,
      List.map_append, List.map_map, ih]
    congr 1
    apply List.map_congr_left
    intro i _
    simp only [Function.comp]
    push_cast
    ring

/-- C2 (amended): the life-chart expander `build_med_points` emits, for a
non-tapering entry, exactly `max 1 days` points at the consecutive days
`D, D+1, …`, all at the normalized entry dose — 3 points for dose "50 mg",
duration "3 days"; the `prepare_chart_data` expander instead emits a single
point at the visit date with the same normalized dose. -/
theorem claim_C2_non_tapering_expansion :
    (∀ (e : MedicationEntry) (D : Int), e.is_tapering = false →
       (LifeChart.build_med_points e D).length = max 1 (get_days e.duration_text) ∧
       ∀ i : Nat, i < max 1 (get_days e.duration_text) →
         (LifeChart.build_med_points e D)[i]? =
           some ⟨D + (i : Int), get_unified_dose e.drug_name e.dose_mg, "",
            "Freq: " ++ e.frequency⟩) ∧
    (∀ (e : MedicationEntry) (D : Rat), e.is_tapering = false →
       PrepareChart.med_points e D =
         [⟨D, some (get_unified_dose e.drug_name e.dose_mg), none⟩]) ∧
    LifeChart.build_med_points medC2 0 =
      [⟨0, 50, "", "Freq: 1-0-1"⟩, ⟨1, 50, "", "Freq: 1-0-1"⟩, ⟨2, 50, "", "Freq: 1-0-1"⟩] := by
  refine ⟨?_, ?_, by decide⟩
  · intro e D h
    have hb : LifeChart.build_med_points e D = LifeChart.standardMedPoints e D := by
      simp [LifeChart.build_med_points, h]
    constructor
    · rw [hb]
      unfold LifeChart.standardMedPoints
      rw [List.length_map, List.length_range]
    · intro i hi
      rw [hb]
      unfold LifeChart.standardMedPoints
      rw [List.getElem?_map, List.getElem?_range hi]
      rfl
  · intro e D h
    simp [PrepareChart.med_points, h]

/-- C2 witness: the non-tapering branches evaluated at the concrete entry. -/
theorem claim_C2_witness :
    (LifeChart.build_med_points medC2 0).length = max 1 (get_days medC2.duration_text) ∧
    PrepareChart.med_points medC2 0 =
      [⟨0, some (get_unified_dose medC2.drug_name medC2.dose_mg), none⟩] :=
  ⟨(claim_C2_non_tapering_expansion.1 medC2 0 rfl).1,
   claim_C2_non_tapering_expansion.2.1 medC2 0 rfl⟩

/-- C3 (amended): the life-chart expander `build_med_points` walks a taper
plan filling one point per day, step after step, over contiguous,
non-overlapping date ranges (the emitted dates are exactly the consecutive
days covering the whole plan), with each step at its own normalized dose —
for steps 50 mg/2 days then 25 mg/2 days at visit date D this is (D, 50),
(D+1, 50), (D+2, 25), (D+3, 25); the `prepare_chart_data` expander instead
emits exactly one point per step. -/
theorem claim_C3_tapering_expansion :
    (∀ (plan : List MedStep) (drug dose freq dur : String) (D : Int),
       (LifeChart.build_med_points ⟨drug, dose, freq, dur, true, some (.steps plan)⟩ D).map
           (fun p => p.x)
         = (List.range (totalTaperDays plan)).map (fun (i : Nat) => D + (i : Int))) ∧
    LifeChart.build_med_points medC3 0
      = [⟨0, 50, "", "Freq:  (Tapering)"⟩, ⟨1, 50, "", "Freq:  (Tapering)"⟩,
         ⟨2, 25, "", "Freq:  (Tapering)"⟩, ⟨3, 25, "", "Freq:  (Tapering)"⟩] ∧
    (∀ (plan : List MedStep) (drug dose freq dur : String) (D : Rat),
       (PrepareChart.med_points ⟨drug, dose, freq, dur, true, some (.steps plan)⟩ D).length
         = plan.length) := by
  refine ⟨?_, by decide, ?_⟩
  · intro plan drug dose freq dur D
    have hb : LifeChart.build_med_points ⟨drug, dose, freq, dur, true, some (.steps plan)⟩ D
        = LifeChart.taperPoints drug plan D := by
      simp [LifeChart.build_med_points]
    rw [hb, taperPoints_dates]
  · intro plan drug dose freq dur D
    have hb : PrepareChart.med_points ⟨drug, dose, freq, dur, true, some (.steps plan)⟩ D
        = PrepareChart.taperLoop drug plan D := by
      simp [PrepareChart.med_points]
    rw [hb]
    clear hb
    induction plan generalizing D with
    | nil => rw [PrepareChart.taperLoop.eq_def]; rfl
    | cons s rest ih =>
      rw [PrepareChart.taperLoop.eq_def]
      simp only [List.length_cons]
      rw [ih]

/-- Deleting the only row holding a token makes the token unresolvable: after
`deleteByToken`, lookup fails whenever the table held at most one row with
that token. -/
theorem deleteByToken_clears (st : GuestStore.Store) (tok : String)
    (h : (st.filter (fun g => g.token == tok)).length ≤ 1) :
    GuestStore.findByToken (GuestStore.deleteByToken st tok) tok = none := by
  induction st with
  | nil => rfl
  | cons g rest ih =>
    rw [GuestStore.deleteByToken.eq_def]
    by_cases hg : g.token = tok
    · simp only [if_pos hg]
      have hb : (g.token == tok) = true := beq_iff_eq.mpr hg
      rw [List.filter_cons, if_pos hb, List.length_cons] at h
      have h0 : rest.filter (fun x => x.token == tok) = [] :=
        List.length_eq_zero.mp (by omega)
      apply List.find?_eq_none.mpr
      intro x hx
      simpa using List.filter_eq_nil_iff.mp h0 x hx
    · simp only [if_neg hg]
      have h2 : (rest.filter (fun x => x.token == tok)).length ≤ 1 := by
        rw [List.filter_cons] at h
        simp only [show (g.token == tok) = false from beq_eq_false_iff_ne.mpr hg,
          Bool.false_eq_true, if_neg] at h
        exact h
      have hni : (g.token == tok) = false := beq_eq_false_iff_ne.mpr hg
      simpa [GuestStore.findByToken, List.find?_cons_of_neg, hni] using ih h2

/-- C7 (confirmed): resolving an unknown token fails with the NotFound
outcome; resolving an existing token at or past its stored expiry deletes the
row and fails with the distinct Expired outcome, after which (the token
having been unique) any later resolve fails with NotFound. -/
theorem claim_C7_resolve_failure_modes :
    (∀ (st : GuestStore.Store) (tok : String) (now : Int),
       GuestStore.findByToken st tok = none →
       GuestStore.resolve st tok now = (.notFound, st)) ∧
    (∀ (st : GuestStore.Store) (tok : String) (now : Int) (g : GuestStore.GuestShare),
       GuestStore.findByToken st tok = some g → g.expires_at ≤ now →
       GuestStore.resolve st tok now = (.expired, GuestStore.deleteByToken st tok) ∧
       ((st.filter (fun e => e.token == tok)).length ≤ 1 →
         ∀ now2 : Int,
           GuestStore.resolve (GuestStore.deleteByToken st tok) tok now2
             = (.notFound, GuestStore.deleteByToken st tok))) ∧
    GuestStore.ResolveResult.notFound ≠ GuestStore.ResolveResult.expired := by
  refine ⟨?_, ?_, by decide⟩
  · intro st tok now h
    simp [GuestStore.resolve, h]
  · intro st tok now g hf he
    have hexp : GuestStore.is_expired g now = true := by
      simp only [GuestStore.is_expired, decide_eq_true_eq]
      omega
    constructor
    · simp [GuestStore.resolve, hf, hexp]
    · intro hcount now2
      have hnone := deleteByToken_clears st tok hcount
      simp [GuestStore.resolve, hnone]

/-- C7 witness: a store holding one token expiring at minute 100, resolved at
minute 100, yields Expired and leaves an empty store; resolving the empty
store and an unknown token yield NotFound. -/
theorem claim_C7_witness :
    GuestStore.resolve [⟨"t1", "pay", 100⟩] "t1" 100
      = (GuestStore.ResolveResult.expired, []) ∧
    GuestStore.resolve [] "t1" 101 = (GuestStore.ResolveResult.notFound, []) := by
  constructor
  · exact (claim_C7_resolve_failure_modes.2.1 [⟨"t1", "pay", 100⟩] "t1" 100
      ⟨"t1", "pay", 100⟩ rfl (by decide)).1
  · exact claim_C7_resolve_failure_modes.1 [] "t1" 101 rfl

/-- C4 (amended): in `prepare_chart_data`, a symptom entry of a visit whose
type is not `First` projects to exactly one point, at the visit date, with
`score_current` and phase Current (when that score is present); the
`life_chart` projector `build_clinical_points`, however, ignores the visit
type entirely: it emits an Onset point exactly when `score_onset` is present,
regardless of the type of the owning visit. -/
theorem claim_C4_follow_up_projection :
    (∀ (e : ClinicalEntry) (D : Rat) (t : String) (c : Rat),
       t ≠ "First" → e.score_current = some c →
       PrepareChart.symptom_points e D t = [⟨D, some c, some "Current"⟩]) ∧
    (∀ (e : ClinicalEntry) (D : Int) (lbl : String),
       (∃ pt ∈ LifeChart.build_clinical_points e D lbl, pt.phase = "Onset") ↔
         e.score_onset ≠ none) := by
  constructor
  · intro e D t c ht hc
    simp only [PrepareChart.symptom_points, if_neg ht, hc, List.filter,
      show (some c != (none : Option Rat)) = true from rfl]
  · intro e D lbl
    unfold LifeChart.build_clinical_points
    cases ho : e.score_onset with
    | none =>
      simp only [ho, ne_eq, not_true_eq_false, iff_false, List.nil_append]
      cases hp : e.score_progression with
      | none =>
        cases hc : e.score_current <;> simp
      | some w =>
        cases hc : e.score_current <;>
          by_cases hd : 0 < get_days e.duration_text <;> simp [hd]
    | some v =>
      simp only [ho, ne_eq, reduceCtorEq, not_false_eq_true, iff_true]
      refine ⟨⟨(if get_days e.duration_text ≠ 0 then D - (get_days e.duration_text : Int)
        else D), v, "Onset", lbl ++ " Onset"⟩, ?_, rfl⟩
      simp

/-- C4 witness: the non-First branch evaluated concretely for a Follow-up
visit, and the Onset-presence equivalence at an entry with an onset score. -/
theorem claim_C4_witness :
    PrepareChart.symptom_points ⟨"Insomnia", some 3, none, some 8, "10 days", ""⟩ 0 "Follow-up"
      = [⟨0, some 8, some "Current"⟩] ∧
    ((∃ pt ∈ LifeChart.build_clinical_points
        ⟨"Insomnia", some 3, none, some 8, "10 days", ""⟩ 0 "Symptom", pt.phase = "Onset")
      ↔ (⟨"Insomnia", some 3, none, some 8, "10 days", ""⟩ : ClinicalEntry).score_onset ≠ none) := by
  constructor
  · exact claim_C4_follow_up_projection.1 ⟨"Insomnia", some 3, none, some 8, "10 days", ""⟩ 0
      "Follow-up" 8 (by decide) rfl
  · exact claim_C4_follow_up_projection.2 ⟨"Insomnia", some 3, none, some 8, "10 days", ""⟩ 0
      "Symptom"

/-! ## Accumulator lemmas for the unified averagers -/

/-- Lookup after a keyed append: the element lands at the looked-up key and
nowhere else. -/
theorem lookupAcc_appendAt {α : Type} (m : List (Int × List α)) (k : Int) (e : α) (d : Int) :
    lookupAcc (appendAt m k e) d =
      if d = k then lookupAcc m d ++ [e] else lookupAcc m d := by
  induction m with
  | nil =>
    simp only [appendAt, lookupAcc]
    by_cases hdk : d = k
    · subst hdk
      simp only [eq_self_iff_true, if_true]
      rfl
    · have e1 : (k = d) = False := eq_false (fun h : k = d => hdk h.symm)
      have e2 : (d = k) = False := eq_false hdk
      simp only [e1, e2, if_false]
  | cons kl rest ih =>
    obtain ⟨k0, l0⟩ := kl
    simp only [appendAt, lookupAcc]
    by_cases h0 : k0 = k
    · subst h0
      simp only [eq_self_iff_true, if_true, lookupAcc]
      by_cases hdk : d = k0
      · subst hdk
        simp only [eq_self_iff_true, if_true]
      · have e1 : (k0 = d) = False := eq_false (fun h : k0 = d => hdk h.symm)
        have e2 : (d = k0) = False := eq_false hdk
        simp only [e1, e2, if_false]
    · have e0 : (k0 = k) = False := eq_false h0
      simp only [e0, if_false, lookupAcc]
      by_cases hd0 : k0 = d
      · subst hd0
        have e1 : (k0 = k) = False := eq_false h0
        simp only [eq_self_iff_true, if_true, e1, if_false]
      · have e1 : (k0 = d) = False := eq_false hd0
        simp only [e1, if_false, ih]

/-- Keys after a keyed append: unchanged when the key existed, appended
otherwise. -/
theorem keysOf_appendAt {α : Type} (m : List (Int × List α)) (k : Int) (e : α) :
    keysOf (appendAt m k e) =
      if k ∈ keysOf m then keysOf m else keysOf m ++ [k] := by
  induction m with
  | nil => simp [appendAt, keysOf]
  | cons kl rest ih =>
    obtain ⟨k0, l0⟩ := kl
    by_cases h0 : k0 = k
    · subst h0
      simp [appendAt, keysOf]
    · have hne : (k = k0) = False := eq_false (fun h => h0 h.symm)
      have e0 : (k0 = k) = False := eq_false h0
      simp only [appendAt, e0, if_false, keysOf, List.map_cons] at ih ⊢
      rw [ih]
      by_cases hk : k ∈ List.map (fun kl => kl.1) rest <;>
        simp [hk, hne, List.mem_cons]

/-- A keyed append preserves distinctness of keys. -/
theorem keysOf_appendAt_nodup {α : Type} {m : List (Int × List α)} (k : Int) (e : α)
    (h : (keysOf m).Nodup) : (keysOf (appendAt m k e)).Nodup := by
  rw [keysOf_appendAt]
  by_cases hk : k ∈ keysOf m
  · simpa [hk]
  · simpa [hk, List.nodup_append] using h

/-- A keyed append preserves non-emptiness of all stored lists. -/
theorem vals_appendAt_ne_nil {α : Type} {m : List (Int × List α)} (k : Int) (e : α)
    (h : ∀ kl ∈ m, kl.2 ≠ []) : ∀ kl ∈ appendAt m k e, kl.2 ≠ [] := by
  induction m with
  | nil =>
    intro kl hkl
    simp only [appendAt, List.mem_singleton] at hkl
    subst hkl
    simp
  | cons kl0 rest ih =>
    obtain ⟨k0, l0⟩ := kl0
    intro kl hkl
    by_cases h0 : k0 = k
    · subst h0
      simp only [appendAt, eq_self_iff_true, if_true, List.mem_cons] at hkl
      rcases hkl with heq | hkl
      · subst heq
        simp
      · exact h kl (List.mem_cons_of_mem _ hkl)
    · have e0 : (k0 = k) = False := eq_false h0
      simp only [appendAt, e0, if_false, List.mem_cons] at hkl
      rcases hkl with heq | hkl
      · subst heq
        exact h (k0, l0) (List.mem_cons_self _ _)
      · exact ih (fun x hx => h x (List.mem_cons_of_mem _ hx)) kl hkl

/-- With distinct keys, lookup recovers exactly the stored list of any
member. -/
theorem lookupAcc_of_mem {α : Type} {m : List (Int × List α)} {k : Int} {l : List α}
    (hnd : (keysOf m).Nodup) (hm : (k, l) ∈ m) : lookupAcc m k = l := by
  induction m with
  | nil => simp at hm
  | cons kl0 rest ih =>
    obtain ⟨k0, l0⟩ := kl0
    rcases List.mem_cons.mp hm with heq | hmem
    · cases heq
      simp [lookupAcc]
    · have hk0 : ¬(k0 = k) := by
        rintro rfl
        have : k0 ∈ keysOf rest := List.mem_map.mpr ⟨(k0, l), hmem, rfl⟩
        simp only [keysOf, List.map_cons, List.nodup_cons] at hnd
        exact hnd.1 this
      have hnd2 : (keysOf rest).Nodup := by
        simp only [keysOf, List.map_cons, List.nodup_cons] at hnd
        exact hnd.2
      have e0 : (k0 = k) = False := eq_false hk0
      simp only [lookupAcc, e0, if_false]
      exact ih hnd2 hmem

/-- A non-empty lookup result is itself stored in the map. -/
theorem lookupAcc_mem_of_ne_nil {α : Type} {m : List (Int × List α)} {d : Int}
    (h : lookupAcc m d ≠ []) : (d, lookupAcc m d) ∈ m := by
  induction m with
  | nil => simp [lookupAcc] at h
  | cons kl0 rest ih =>
    obtain ⟨k0, l0⟩ := kl0
    by_cases h0 : k0 = d
    · subst h0
      simp [lookupAcc]
    · have e0 : (k0 = d) = False := eq_false h0
      simp only [lookupAcc, e0, if_false] at h ⊢
      exact List.mem_cons_of_mem _ (ih h)

/-- Lookup after a keyed overwrite. -/
theorem lookupOpt_setAt {α : Type} (m : List (Int × α)) (k : Int) (v : α) (d : Int) :
    lookupOpt (setAt m k v) d = if d = k then some v else lookupOpt m d := by
  induction m with
  | nil =>
    simp only [setAt, lookupOpt]
    by_cases hdk : d = k
    · subst hdk
      simp only [eq_self_iff_true, if_true]
    · have e1 : (k = d) = False := eq_false (fun h : k = d => hdk h.symm)
      have e2 : (d = k) = False := eq_false hdk
      simp only [e1, e2, if_false]
  | cons kv rest ih =>
    obtain ⟨k0, v0⟩ := kv
    simp only [setAt, lookupOpt]
    by_cases h0 : k0 = k
    · subst h0
      simp only [eq_self_iff_true, if_true, lookupOpt]
      by_cases hdk : d = k0
      · subst hdk
        simp only [eq_self_iff_true, if_true]
      · have e1 : (k0 = d) = False := eq_false (fun h : k0 = d => hdk h.symm)
        have e2 : (d = k0) = False := eq_false hdk
        simp only [e1, e2, if_false]
    · have e0 : (k0 = k) = False := eq_false h0
      simp only [e0, if_false, lookupOpt]
      by_cases hd0 : k0 = d
      · subst hd0
        simp only [eq_self_iff_true, if_true, e0, if_false]
      · have e1 : (k0 = d) = False := eq_false hd0
        simp only [e1, if_false, ih]

/-- Insertion keeps the same elements (as a permutation). -/
theorem insertByKey_perm {α : Type} (key : α → Int) (p : α) (l : List α) :
    (insertByKey key p l).Perm (p :: l) := by
  induction l with
  | nil => simp [insertByKey]
  | cons q rest ih =>
    by_cases hle : key p ≤ key q
    · simp [insertByKey, hle]
    · have e0 : (key p ≤ key q) = False := eq_false hle
      simp only [insertByKey, e0, if_false]
      exact (ih.cons q).trans (List.Perm.swap p q rest)

/-- Sorting keeps the same elements (as a permutation). -/
theorem sortByKey_perm {α : Type} (key : α → Int) (l : List α) :
    (sortByKey key l).Perm l := by
  induction l with
  | nil => simp [sortByKey]
  | cons p rest ih =>
    exact (insertByKey_perm key p (sortByKey key rest)).trans (ih.cons p)


namespace PrepareChart

/-- Generalized breakdown-fold lemma: folding points into an accumulator adds
exactly the dated contributions at every key. -/
theorem dateBreakdown_go (ps : List (String × PPoint)) :
    ∀ (m : List (Int × List (String × Rat))) (d : Int),
      lookupAcc (ps.foldl
        (fun m np =>
          match np.2.y with
          | some v => appendAt m ⌊np.2.x⌋ (np.1, v)
          | none => m) m) d
        = lookupAcc m d ++ contribsAt ps d := by
  induction ps with
  | nil =>
    intro m d
    simp [contribsAt]
  | cons np rest ih =>
    intro m d
    rw [List.foldl_cons]
    cases hy : np.2.y with
    | none =>
      simp only [hy]
      rw [ih]
      congr 1
      simp [contribsAt, List.filterMap_cons, hy]
    | some v =>
      simp only [hy]
      rw [ih]
      by_cases hx : (⌊np.2.x⌋ : Int) = d
      · rw [lookupAcc_appendAt, if_pos hx.symm,
          show contribsAt (np :: rest) d = (np.1, v) :: contribsAt rest d from by
            simp [contribsAt, List.filterMap_cons, hy, hx]]
        simp
      · rw [lookupAcc_appendAt, if_neg (fun h : d = ⌊np.2.x⌋ => hx h.symm),
          show contribsAt (np :: rest) d = contribsAt rest d from by
            simp [contribsAt, List.filterMap_cons, hy, hx]]

/-- Lookup in the breakdown dict gives exactly the dated contributions. -/
theorem dateBreakdown_lookup (ps : List (String × PPoint)) (d : Int) :
    lookupAcc (dateBreakdown ps) d = contribsAt ps d := by
  rw [dateBreakdown, dateBreakdown_go]
  rfl

/-- The breakdown dict has distinct keys. -/
theorem dateBreakdown_keys_nodup (ps : List (String × PPoint)) :
    (keysOf (dateBreakdown ps)).Nodup := by
  rw [dateBreakdown]
  have go : ∀ (l : List (String × PPoint)) (m : List (Int × List (String × Rat))),
      (keysOf m).Nodup →
      (keysOf (l.foldl
        (fun m np =>
          match np.2.y with
          | some v => appendAt m ⌊np.2.x⌋ (np.1, v)
          | none => m) m)).Nodup := by
    intro l
    induction l with
    | nil => intro m hm; exact hm
    | cons np rest ih =>
      intro m hm
      rw [List.foldl_cons]
      cases hy : np.2.y with
      | none => simpa only [hy] using ih m hm
      | some v =>
        simp only [hy]
        exact ih _ (keysOf_appendAt_nodup _ _ hm)
  exact go ps [] (by simp [keysOf])

/-- Every list stored in the breakdown dict is non-empty. -/
theorem dateBreakdown_vals_ne_nil (ps : List (String × PPoint)) :
    ∀ kl ∈ dateBreakdown ps, kl.2 ≠ [] := by
  rw [dateBreakdown]
  have go : ∀ (l : List (String × PPoint)) (m : List (Int × List (String × Rat))),
      (∀ kl ∈ m, kl.2 ≠ []) →
      ∀ kl ∈ l.foldl
        (fun m np =>
          match np.2.y with
          | some v => appendAt m ⌊np.2.x⌋ (np.1, v)
          | none => m) m, kl.2 ≠ [] := by
    intro l
    induction l with
    | nil => intro m hm; exact hm
    | cons np rest ih =>
      intro m hm
      rw [List.foldl_cons]
      cases hy : np.2.y with
      | none => simpa only [hy] using ih m hm
      | some v =>
        simp only [hy]
        exact ih _ (vals_appendAt_ne_nil _ _ hm)
  exact go ps [] (by simp)

/-- Lookup in the phase dict gives the phase of the last contributor. -/
theorem datePhases_lookup (ps : List (String × PPoint)) (d : Int) :
    lookupOpt (datePhases ps) d = lastPhaseAt ps d := by
  rw [datePhases, lastPhaseAt]
  have go : ∀ (l : List (String × PPoint)) (m : List (Int × String)),
      lookupOpt (l.foldl
        (fun m np =>
          match np.2.phase with
          | some p => setAt m ⌊np.2.x⌋ p
          | none => m) m) d
        = l.foldl
            (fun acc np =>
              match np.2.phase with
              | some p => if ⌊np.2.x⌋ = d then some p else acc
              | none => acc)
            (lookupOpt m d) := by
    intro l
    induction l with
    | nil => intro m; rfl
    | cons np rest ih =>
      intro m
      rw [List.foldl_cons, List.foldl_cons]
      cases hp : np.2.phase with
      | none => simp only [hp]; exact ih m
      | some p =>
        simp only [hp]
        rw [ih, lookupOpt_setAt]
        by_cases hx : (⌊np.2.x⌋ : Int) = d
        · rw [if_pos hx.symm, if_pos hx]
        · rw [if_neg (fun h : d = ⌊np.2.x⌋ => hx h.symm), if_neg hx]
  rw [go]
  rfl

/-- Characterization of every point emitted by `calculate_unified` in
`prepare_chart_data`: the breakdown is exactly the dated contributions, it is
non-empty, the value is its rounded average, and the phase is the last
contributed one. -/
theorem calculate_unified_mem {data : List (String × List PPoint)} {pts : List UPoint}
    {pt : UPoint} (h : calculate_unified data = some pts) (hm : pt ∈ pts) :
    pt.breakdown = contribsAt (pairs data) pt.x ∧
    pt.breakdown ≠ [] ∧
    pt.y = round2 (((pt.breakdown.map (fun nv => nv.2)).sum) / (pt.breakdown.length : Rat)) ∧
    pt.phase = lastPhaseAt (pairs data) pt.x := by
  rw [calculate_unified] at h
  split at h
  · exact absurd h (by simp)
  · replace h := Option.some.inj h
    subst h
    obtain ⟨kd, hkds, hmk⟩ := List.mem_filterMap.mp hm
    have hkdb : kd ∈ dateBreakdown (pairs data) :=
      ((sortByKey_perm (fun kd => kd.1) (dateBreakdown (pairs data))).mem_iff).mp hkds
    have hlook : lookupAcc (dateBreakdown (pairs data)) kd.1 = kd.2 :=
      lookupAcc_of_mem (dateBreakdown_keys_nodup _) (by simpa using hkdb)
    have hcon : kd.2 = contribsAt (pairs data) kd.1 := by
      rw [← hlook, dateBreakdown_lookup]
    split at hmk
    · exact absurd hmk (by simp)
    · replace hmk := Option.some.inj hmk
      subst hmk
      refine ⟨hcon, by assumption, rfl, ?_⟩
      show lookupOpt (datePhases (pairs data)) kd.1 = _
      rw [datePhases_lookup]
  
end PrepareChart

/-- The prepare-chart averager returns the explicit no-line result exactly
when no point contributes a value. -/
theorem PrepareChart.calculate_unified_none_iff (data : List (String × List PrepareChart.PPoint)) :
    PrepareChart.calculate_unified data = none ↔
      PrepareChart.contribPairs (PrepareChart.pairs data) = [] := by
  rw [PrepareChart.calculate_unified]
  constructor
  · intro h
    split at h
    case isTrue hU =>
      by_contra hne
      obtain ⟨pr, hpr⟩ := List.exists_mem_of_ne_nil _ hne
      obtain ⟨np, hnp, hf⟩ := List.mem_filterMap.mp hpr
      obtain ⟨v, hv, _⟩ := Option.map_eq_some'.mp hf
      have hc : (np.1, v) ∈ PrepareChart.contribsAt (PrepareChart.pairs data) ⌊np.2.x⌋ :=
        List.mem_filterMap.mpr ⟨np, hnp, by simp [hv]⟩
      have hnnil :
          lookupAcc (PrepareChart.dateBreakdown (PrepareChart.pairs data)) ⌊np.2.x⌋ ≠ [] := by
        rw [PrepareChart.dateBreakdown_lookup]
        intro hnil
        rw [hnil] at hc
        simp at hc
      have hmem := lookupAcc_mem_of_ne_nil hnnil
      have hsorted :
          (⌊np.2.x⌋, lookupAcc (PrepareChart.dateBreakdown (PrepareChart.pairs data)) ⌊np.2.x⌋)
            ∈ sortByKey (fun kd => kd.1) (PrepareChart.dateBreakdown (PrepareChart.pairs data)) :=
        ((sortByKey_perm _ _).mem_iff).mpr hmem
      have hnone := List.filterMap_eq_nil_iff.mp hU _ hsorted
      rw [if_neg hnnil] at hnone
      exact absurd hnone (by simp)
    case isFalse hU => simp at h
  · intro h
    have hall : ∀ np ∈ PrepareChart.pairs data, np.2.y = none := by
      intro np hnp
      have := List.filterMap_eq_nil_iff.mp h np hnp
      simpa using this
    have hdb : PrepareChart.dateBreakdown (PrepareChart.pairs data) = [] := by
      rw [PrepareChart.dateBreakdown]
      have go : ∀ (l : List (String × PrepareChart.PPoint)),
          (∀ np ∈ l, np.2.y = none) →
          ∀ m : List (Int × List (String × Rat)),
            l.foldl
              (fun m np =>
                match np.2.y with
                | some v => appendAt m ⌊np.2.x⌋ (np.1, v)
                | none => m) m = m := by
        intro l
        induction l with
        | nil => intro _ m; rfl
        | cons np rest ih =>
          intro hl m
          rw [List.foldl_cons]
          have hy : np.2.y = none := hl np (List.mem_cons_self _ _)
          simp only [hy]
          exact ih (fun x hx => hl x (List.mem_cons_of_mem _ hx)) m
      exact go _ hall []
    rw [hdb]
    simp [sortByKey]

/-- C8 (amended): the breakdown of every unified point lists exactly the (name,
value) pairs contributing on its calendar date, the breakdown is never empty,
and the value of the point is the arithmetic mean of those values rounded to two
decimals; with no contributing point the averager returns the explicit
no-unified-line result; on the A = (2024-01-01, 4), B = (2024-01-01, 6)
example it emits exactly one point with average 5 and breakdown
[(A, 4), (B, 6)]. -/
theorem claim_C8_unified_average :
    (∀ (data : List (String × List PrepareChart.PPoint)) (pts : List PrepareChart.UPoint)
       (pt : PrepareChart.UPoint),
       PrepareChart.calculate_unified data = some pts → pt ∈ pts →
       pt.breakdown = PrepareChart.contribsAt (PrepareChart.pairs data) pt.x ∧
       pt.breakdown ≠ [] ∧
       pt.y = round2 (((pt.breakdown.map (fun nv => nv.2)).sum)
         / (pt.breakdown.length : Rat))) ∧
    (∀ data : List (String × List PrepareChart.PPoint),
       PrepareChart.calculate_unified data = none ↔
         PrepareChart.contribPairs (PrepareChart.pairs data) = []) ∧
    PrepareChart.calculate_unified abData = some [⟨0, 5, [("A", 4), ("B", 6)], none⟩] := by
  refine ⟨?_, PrepareChart.calculate_unified_none_iff, ?_⟩
  · intro data pts pt h hm
    obtain ⟨h1, h2, h3, _⟩ := PrepareChart.calculate_unified_mem h hm
    exact ⟨h1, h2, h3⟩
  · simp only [abData, PrepareChart.calculate_unified, PrepareChart.pairs,
      PrepareChart.dateBreakdown, PrepareChart.datePhases, appendAt, setAt, lookupOpt,
      sortByKey, insertByKey, round2, List.map_cons, List.map_nil, List.flatten,
      List.foldl_cons, List.foldl_nil, List.filterMap_cons, List.filterMap_nil,
      List.append_nil, List.nil_append, List.cons_append, List.singleton_append,
      List.sum_cons, List.sum_nil, List.length_cons, List.length_nil, Int.floor_zero]
    norm_num [List.cons_ne_nil]

/-- C8 witness: the per-point characterization applied to the unified point
computed for the A / B example. -/
theorem claim_C8_witness :
    (⟨0, 5, [("A", 4), ("B", 6)], none⟩ : PrepareChart.UPoint).breakdown
      = PrepareChart.contribsAt (PrepareChart.pairs abData)
          (⟨0, 5, [("A", 4), ("B", 6)], none⟩ : PrepareChart.UPoint).x ∧
    (⟨0, 5, [("A", 4), ("B", 6)], none⟩ : PrepareChart.UPoint).breakdown ≠ [] := by
  have h := claim_C8_unified_average
  have hpt := h.1 abData [⟨0, 5, [("A", 4), ("B", 6)], none⟩]
    ⟨0, 5, [("A", 4), ("B", 6)], none⟩ h.2.2 (List.mem_singleton_self _)
  exact ⟨hpt.1, hpt.2.1⟩

namespace GuestShareView

/-- Generalized grouping-fold lemma for the guest averager. -/
theorem dateGroups_go (items : List GItem) :
    ∀ (m : List (Int × List GItem)) (d : Int),
      lookupAcc (items.foldl (fun m it => appendAt m it.date it) m) d
        = lookupAcc m d ++ itemsAt items d := by
  induction items with
  | nil =>
    intro m d
    simp [itemsAt]
  | cons it rest ih =>
    intro m d
    rw [List.foldl_cons, ih]
    by_cases hx : it.date = d
    · rw [lookupAcc_appendAt, if_pos hx.symm,
        show itemsAt (it :: rest) d = it :: itemsAt rest d from by
          simp [itemsAt, List.filterMap_cons, hx]]
      simp
    · rw [lookupAcc_appendAt, if_neg (fun h : d = it.date => hx h.symm),
        show itemsAt (it :: rest) d = itemsAt rest d from by
          simp [itemsAt, List.filterMap_cons, hx]]

/-- Lookup in the guest date grouping gives exactly the same-date items. -/
theorem dateGroups_lookup (items : List GItem) (d : Int) :
    lookupAcc (dateGroups items) d = itemsAt items d := by
  rw [dateGroups, dateGroups_go]
  rfl

/-- The guest date grouping has distinct keys. -/
theorem dateGroups_keys_nodup (items : List GItem) :
    (keysOf (dateGroups items)).Nodup := by
  rw [dateGroups]
  have go : ∀ (l : List GItem) (m : List (Int × List GItem)),
      (keysOf m).Nodup →
      (keysOf (l.foldl (fun m it => appendAt m it.date it) m)).Nodup := by
    intro l
    induction l with
    | nil => intro m hm; exact hm
    | cons it rest ih =>
      intro m hm
      rw [List.foldl_cons]
      exact ih _ (keysOf_appendAt_nodup _ _ hm)
  exact go items [] (by simp [keysOf])

/-- Every guest date-group bucket is non-empty. -/
theorem dateGroups_vals_ne_nil (items : List GItem) :
    ∀ kl ∈ dateGroups items, kl.2 ≠ [] := by
  rw [dateGroups]
  have go : ∀ (l : List GItem) (m : List (Int × List GItem)),
      (∀ kl ∈ m, kl.2 ≠ []) →
      ∀ kl ∈ l.foldl (fun m it => appendAt m it.date it) m, kl.2 ≠ [] := by
    intro l
    induction l with
    | nil => intro m hm; exact hm
    | cons it rest ih =>
      intro m hm
      rw [List.foldl_cons]
      exact ih _ (vals_appendAt_ne_nil _ _ hm)
  exact go items [] (by simp)

/-- Characterization of every point emitted by the guest averager: it is
built from the non-empty group of items sharing its date. -/
theorem calculate_unified_mem_guest {items : List GItem} {pts : List GUPoint} {pt : GUPoint}
    (h : calculate_unified items = some pts) (hm : pt ∈ pts) :
    itemsAt items pt.x ≠ [] ∧
    pt.breakdown = (itemsAt items pt.x).map (fun i => (i.name, i.score)) ∧
    pt.y = round2 (((itemsAt items pt.x).map (fun i => i.score)).sum
      / ((itemsAt items pt.x).length : Rat)) ∧
    pt.phase = phaseLabel (itemsAt items pt.x) := by
  rw [calculate_unified] at h
  split at h
  · exact absurd h (by simp)
  · replace h := Option.some.inj h
    subst h
    have hm2 := ((sortByKey_perm (fun p : GUPoint => p.x) _).mem_iff).mp hm
    obtain ⟨kg, hkg, hpt⟩ := List.mem_map.mp hm2
    have hlook : lookupAcc (dateGroups items) kg.1 = kg.2 :=
      lookupAcc_of_mem (dateGroups_keys_nodup _) (by simpa using hkg)
    have hgrp : kg.2 = itemsAt items kg.1 := by
      rw [← hlook, dateGroups_lookup]
    have hne : kg.2 ≠ [] := dateGroups_vals_ne_nil items kg hkg
    subst hpt
    simp only [← hgrp]
    exact ⟨hne, trivial, trivial, trivial⟩

/-- A constant non-empty list of phases dedups to a singleton. -/
theorem dedup_of_all_eq {l : List String} {p : String} (hne : l ≠ [])
    (hall : ∀ x ∈ l, x = p) : l.dedup = [p] := by
  induction l with
  | nil => exact absurd rfl hne
  | cons a rest ih =>
    have ha : a = p := hall a (List.mem_cons_self _ _)
    subst ha
    cases rest with
    | nil => simp
    | cons b t =>
      have hb : b = a := hall b (by simp)
      have hmem : a ∈ b :: t := by
        rw [hb]
        exact List.mem_cons_self _ _
      rw [List.dedup_cons_of_mem hmem]
      exact ih (by simp) (fun x hx => hall x (List.mem_cons_of_mem _ hx))

/-- When all items of a group share one (defaulted) phase, the group label is
that phase. -/
theorem phaseLabel_of_all {g : List GItem} {p : String} (hne : g ≠ [])
    (hall : ∀ it ∈ g, it.phase.getD "Current" = p) : phaseLabel g = p := by
  rw [phaseLabel, dedup_of_all_eq (by simpa using hne)
    (by intro x hx; obtain ⟨it, hit, rfl⟩ := List.mem_map.mp hx; exact hall it hit)]

/-- When two items of a group disagree on the (defaulted) phase, the group
label is the Mixed sentinel. -/
theorem phaseLabel_of_mixed {g : List GItem}
    (h : ∃ i1 ∈ g, ∃ i2 ∈ g, i1.phase.getD "Current" ≠ i2.phase.getD "Current") :
    phaseLabel g = "Mixed" := by
  obtain ⟨i1, h1, i2, h2, hne⟩ := h
  rw [phaseLabel]
  have m1 : i1.phase.getD "Current" ∈ (g.map (fun i => i.phase.getD "Current")).dedup :=
    List.mem_dedup.mpr (List.mem_map.mpr ⟨i1, h1, rfl⟩)
  have m2 : i2.phase.getD "Current" ∈ (g.map (fun i => i.phase.getD "Current")).dedup :=
    List.mem_dedup.mpr (List.mem_map.mpr ⟨i2, h2, rfl⟩)
  rcases hdd : (g.map (fun i => i.phase.getD "Current")).dedup with _ | ⟨a, _ | ⟨b, t⟩⟩
  · rw [hdd] at m1
    simp at m1
  · rw [hdd] at m1 m2
    simp only [List.mem_singleton] at m1 m2
    exact absurd (m1.trans m2.symm) hne
  · rw [hdd]

end GuestShareView

/-- C5 (amended): in the guest-share averager, the phase of a unified point is the
single shared (defaulted) phase of its date group when all contributors
agree, and the "Mixed" sentinel when two contributors disagree; the
`prepare_chart_data` averager instead tags each unified point with the phase
of the last contributing point carrying one (no mixed sentinel). -/
theorem claim_C5_unified_phase :
    (∀ (items : List GuestShareView.GItem) (pts : List GuestShareView.GUPoint)
       (pt : GuestShareView.GUPoint),
       GuestShareView.calculate_unified items = some pts → pt ∈ pts →
       (∀ p : String,
         (∀ it ∈ GuestShareView.itemsAt items pt.x, it.phase.getD "Current" = p) →
         pt.phase = p) ∧
       ((∃ i1 ∈ GuestShareView.itemsAt items pt.x, ∃ i2 ∈ GuestShareView.itemsAt items pt.x,
          i1.phase.getD "Current" ≠ i2.phase.getD "Current") → pt.phase = "Mixed")) ∧
    (∀ (data : List (String × List PrepareChart.PPoint)) (pts : List PrepareChart.UPoint)
       (pt : PrepareChart.UPoint),
       PrepareChart.calculate_unified data = some pts → pt ∈ pts →
       pt.phase = PrepareChart.lastPhaseAt (PrepareChart.pairs data) pt.x) := by
  constructor
  · intro items pts pt h hm
    obtain ⟨hne, _, _, hph⟩ := GuestShareView.calculate_unified_mem_guest h hm
    constructor
    · intro p hall
      rw [hph]
      exact GuestShareView.phaseLabel_of_all hne hall
    · intro hmix
      rw [hph]
      exact GuestShareView.phaseLabel_of_mixed hmix
  · intro data pts pt h hm
    exact (PrepareChart.calculate_unified_mem h hm).2.2.2

/-- C5 witness: the phase characterization applied to a concrete mixed-phase
guest payload, whose unified point carries the Mixed sentinel. -/
theorem claim_C5_witness :
    GuestShareView.calculate_unified gMix
      = some [⟨0, 5, "Mixed", [("A", 4), ("B", 6)]⟩] ∧
    (⟨0, 5, "Mixed", [("A", 4), ("B", 6)]⟩ : GuestShareView.GUPoint).phase = "Mixed" := by
  have hcalc : GuestShareView.calculate_unified gMix
      = some [⟨0, 5, "Mixed", [("A", 4), ("B", 6)]⟩] := by
    simp only [gMix, GuestShareView.calculate_unified, GuestShareView.dateGroups,
      GuestShareView.phaseLabel, appendAt, sortByKey, insertByKey, round2,
      List.foldl_cons, List.foldl_nil, List.map_cons, List.map_nil, Option.getD_some,
      List.sum_cons, List.sum_nil, List.length_cons, List.length_nil]
    norm_num [List.cons_ne_nil]
    rw [show (["Onset", "Current"] : List String).dedup = ["Onset", "Current"] from by decide]
  refine ⟨hcalc, ?_⟩
  exact (claim_C5_unified_phase.1 gMix _ _ hcalc (List.mem_singleton_self _)).2
    ⟨⟨"A", 4, some "Onset", 0⟩, by decide, ⟨"B", 6, some "Current", 0⟩, by decide, by decide⟩

/-- Whitespace characters are not digits. -/
theorem pySpace_not_digit (c : Char) (h : pySpace c = true) : c.isDigit = false := by
  simp only [pySpace, Bool.or_eq_true, beq_iff_eq] at h
  rcases h with ((((h | h) | h) | h) | h) | h <;> subst h <;> decide

/-- The scan skips any digit-free prefix. -/
theorem scanMatch_skip (l1 l2 : List Char) (h : ∀ c ∈ l1, c.isDigit = false) :
    scanMatch (l1 ++ l2) = scanMatch l2 := by
  induction l1 with
  | nil => rfl
  | cons c t ih =>
    have hc : c.isDigit = false := h c (List.mem_cons_self _ _)
    rw [List.cons_append, scanMatch.eq_def]
    simp only [hc, Bool.false_eq_true, if_false]
    exact ih (fun x hx => h x (List.mem_cons_of_mem _ hx))

/-- Splitting a run: takeWhile and dropWhile cut exactly at the boundary when
the prefix satisfies the predicate and the remainder starts violating it. -/
theorem takeWhile_dropWhile_split (p : Char → Bool) (xs ys : List Char)
    (hxs : ∀ c ∈ xs, p c = true) (hys : ∀ c t2, ys = c :: t2 → p c = false) :
    List.takeWhile p (xs ++ ys) = xs ∧ List.dropWhile p (xs ++ ys) = ys := by
  induction xs with
  | nil =>
    cases ys with
    | nil => exact ⟨rfl, rfl⟩
    | cons c t =>
      have hc : p c = false := hys c t rfl
      constructor
      · rw [List.nil_append, List.takeWhile_cons, hc]
        simp
      · rw [List.nil_append, List.dropWhile_cons, hc]
        simp
  | cons x xs ih =>
    have hx : p x = true := hxs x (List.mem_cons_self _ _)
    have ih2 := ih (fun c hc => hxs c (List.mem_cons_of_mem _ hc))
    constructor
    · rw [List.cons_append, List.takeWhile_cons, hx]
      simp only [if_true]
      rw [ih2.1]
    · rw [List.cons_append, List.dropWhile_cons, hx]
      simp only [if_true]
      exact ih2.2

/-- A list starts with itself followed by anything. -/
theorem listStartsWith_append (p t : List Char) : listStartsWith p (p ++ t) = true := by
  induction p with
  | nil => rfl
  | cons c cs ih =>
    rw [List.cons_append, listStartsWith]
    simp [ih]

/-- A successful prefix test yields a decomposition. -/
theorem listStartsWith_decomp : ∀ (p t : List Char), listStartsWith p t = true →
    ∃ r, t = p ++ r := by
  intro p
  induction p with
  | nil => exact fun t _ => ⟨t, rfl⟩
  | cons c cs ih =>
    intro t h
    cases t with
    | nil => simp [listStartsWith] at h
    | cons d ds =>
      rw [listStartsWith, Bool.and_eq_true, beq_iff_eq] at h
      obtain ⟨rfl, h2⟩ := h
      obtain ⟨r, rfl⟩ := ih ds h2
      exact ⟨r, rfl⟩

/-- The unit recognizer accepts each unit word wherever it stands. -/
theorem unitAt_self (u : DurUnit) (tl : List Char) : unitAt (unitStr u ++ tl) = some u := by
  cases u
  · rw [unitAt, listStartsWith_append]
    simp
  · rw [unitAt, show listStartsWith (unitStr .day) (unitStr .week ++ tl) = false from rfl,
      listStartsWith_append]
    simp
  · rw [unitAt, show listStartsWith (unitStr .day) (unitStr .month ++ tl) = false from rfl,
      show listStartsWith (unitStr .week) (unitStr .month ++ tl) = false from rfl,
      listStartsWith_append]
    simp
  · rw [unitAt, show listStartsWith (unitStr .day) (unitStr .year ++ tl) = false from rfl,
      show listStartsWith (unitStr .week) (unitStr .year ++ tl) = false from rfl,
      show listStartsWith (unitStr .month) (unitStr .year ++ tl) = false from rfl,
      listStartsWith_append]
    simp

/-- A successful unit recognition decomposes the text. -/
theorem unitAt_decomp {x : List Char} {u : DurUnit} (h : unitAt x = some u) :
    ∃ r, x = unitStr u ++ r := by
  rw [unitAt] at h
  split at h
  · cases h
    exact listStartsWith_decomp _ _ (by assumption)
  · split at h
    · cases h
      exact listStartsWith_decomp _ _ (by assumption)
    · split at h
      · cases h
        exact listStartsWith_decomp _ _ (by assumption)
      · split at h
        · cases h
          exact listStartsWith_decomp _ _ (by assumption)
        · exact absurd h (by simp)

/-- The scan succeeds on a digit run, optional whitespace and a unit word,
capturing the numeric value of the whole run. -/
theorem scanMatch_hit (ds sp tl : List Char) (u : DurUnit) (hds : ds ≠ [])
    (hd : ∀ c ∈ ds, c.isDigit = true) (hsp : ∀ c ∈ sp, pySpace c = true) :
    scanMatch (ds ++ (sp ++ (unitStr u ++ tl))) = some (digitsVal ds, u) := by
  cases ds with
  | nil => exact absurd rfl hds
  | cons d0 dt =>
    have hd0 : d0.isDigit = true := hd d0 (List.mem_cons_self _ _)
    have hsplit1 := takeWhile_dropWhile_split Char.isDigit (d0 :: dt)
      (sp ++ (unitStr u ++ tl)) hd
      (by
        intro c t2 hh
        cases sp with
        | cons s0 st =>
          rw [List.cons_append] at hh
          injection hh with h1 h2
          subst h1
          exact pySpace_not_digit s0 (hsp s0 (List.mem_cons_self _ _))
        | nil =>
          rw [List.nil_append] at hh
          cases u <;> simp only [unitStr] at hh <;> injection hh with h1 h2 <;>
            subst h1 <;> decide)
    have hsplit2 := takeWhile_dropWhile_split pySpace sp (unitStr u ++ tl) hsp
      (by
        intro c t2 hh
        cases u <;> simp only [unitStr] at hh <;> injection hh with h1 h2 <;>
          subst h1 <;> decide)
    rw [List.cons_append, scanMatch.eq_def]
    simp only [hd0, if_true]
    rw [← List.cons_append, hsplit1.1, hsplit1.2, hsplit2.2, unitAt_self]

/-- A successful scan exhibits the regex pattern inside the text. -/
theorem scanMatch_some_pattern : ∀ (l : List Char) (n : Nat) (u : DurUnit),
    scanMatch l = some (n, u) → HasDurationPattern l := by
  intro l
  induction l with
  | nil => intro n u h; exact absurd h (by simp [scanMatch])
  | cons c rest ih =>
    intro n u h
    rw [scanMatch.eq_def] at h
    by_cases hc : c.isDigit = true
    · simp only [hc, if_true] at h
      cases hu : unitAt (List.dropWhile pySpace (List.dropWhile Char.isDigit (c :: rest))) with
      | some u2 =>
        rw [hu] at h
        obtain ⟨r, hr⟩ := unitAt_decomp hu
        refine ⟨[], List.takeWhile Char.isDigit (c :: rest),
          List.takeWhile pySpace (List.dropWhile Char.isDigit (c :: rest)), r, u2,
          ?_, ?_, ?_, ?_⟩
        · rw [List.nil_append, ← hr, List.takeWhile_append_dropWhile,
            List.takeWhile_append_dropWhile]
        · rw [List.takeWhile_cons, hc]
          simp
        · intro x hx
          exact List.mem_takeWhile_imp hx
        · intro x hx
          exact List.mem_takeWhile_imp hx
      | none =>
        rw [hu] at h
        obtain ⟨pre, ds, sp, tl, u3, hdec, hds, hdd, hss⟩ := ih n u h
        exact ⟨c :: pre, ds, sp, tl, u3, by rw [hdec, List.cons_append], hds, hdd, hss⟩
    · have hcf : (c.isDigit = true) = False := eq_false hc
      simp only [hcf, if_false] at h
      obtain ⟨pre, ds, sp, tl, u3, hdec, hds, hdd, hss⟩ := ih n u h
      exact ⟨c :: pre, ds, sp, tl, u3, by rw [hdec, List.cons_append], hds, hdd, hss⟩

/-- C9 (confirmed): whenever the lowered, stripped input text decomposes as a
digit-free prefix, a digit run `n`, whitespace, a unit word (in any letter
case and with anything, e.g. a plural `s`, following), the Duration Parser
returns exactly `n` times 1 / 7 / 30 / 365 days for day / week / month /
year; empty input and any input without such a number-and-unit occurrence
yield the no-duration result (the parser is a total function — it cannot
raise). -/
theorem claim_C9_duration_parser_contract :
    (∀ (s : String) (pre ds sp tl : List Char) (u : DurUnit),
       pyStrip (pyLower s.data) = pre ++ (ds ++ (sp ++ (unitStr u ++ tl))) →
       (∀ c ∈ pre, c.isDigit = false) → ds ≠ [] →
       (∀ c ∈ ds, c.isDigit = true) → (∀ c ∈ sp, pySpace c = true) →
       parse_duration s = some (digitsVal ds * unitDays u)) ∧
    parse_duration "" = none ∧
    (∀ s : String, ¬ HasDurationPattern (pyStrip (pyLower s.data)) →
       parse_duration s = none) := by
  refine ⟨?_, rfl, ?_⟩
  · intro s pre ds sp tl u hdec hpre hds hd hsp
    have hs : ¬(s = "") := by
      intro hnil
      subst hnil
      rw [show pyStrip (pyLower ("" : String).data) = [] from rfl] at hdec
      have := congrArg List.length hdec
      simp [List.length_append] at this
      exact hds (List.length_eq_zero.mp (by omega))
    rw [parse_duration, if_neg hs, hdec, scanMatch_skip pre _ hpre,
      scanMatch_hit ds sp tl u hds hd hsp]
  · intro s hnp
    rw [parse_duration]
    by_cases hs : s = ""
    · rw [if_pos hs]
    · rw [if_neg hs]
      cases hsm : scanMatch (pyStrip (pyLower s.data)) with
      | none => rfl
      | some r =>
        exact absurd (scanMatch_some_pattern _ r.1 r.2 (by rw [hsm])) hnp

/-- C9 witness: the contract applied to the concrete input "  2 WeEkS soon  "
(mixed case, padded, with trailing text), which parses to 14 days. -/
theorem claim_C9_witness :
    parse_duration "  2 WeEkS soon  " = some 14 ∧ parse_duration "" = none := by
  have h := claim_C9_duration_parser_contract
  constructor
  · have h2 := h.1 "  2 WeEkS soon  " [] ['2'] [' ']
      ('s' :: ' ' :: 's' :: 'o' :: 'o' :: 'n' :: []) .week
      (by decide) (by decide) (by decide) (by decide) (by decide)
    rw [show digitsVal ['2'] * unitDays DurUnit.week = 14 from by decide] at h2
    exact h2
  · exact h.2.1

/-- C3 witness: the contiguity statement applied to the concrete two-step
taper plan. -/
theorem claim_C3_witness :
    (LifeChart.build_med_points
        ⟨"Diazepam", "50 mg", "", "2 days", true,
          some (.steps [⟨"50 mg", "", "2 days"⟩, ⟨"25 mg", "", "2 days"⟩])⟩ 0).map
        (fun p => p.x)
      = (List.range (totalTaperDays [⟨"50 mg", "", "2 days"⟩, ⟨"25 mg", "", "2 days"⟩])).map
          (fun (i : Nat) => (0 : Int) + (i : Int)) :=
  claim_C3_tapering_expansion.1 [⟨"50 mg", "", "2 days"⟩, ⟨"25 mg", "", "2 days"⟩]
    "Diazepam" "50 mg" "" "2 days" 0

/-- C10 witness: the projection example instantiated at day number 0. -/
theorem claim_C10_witness :
    PrepareChart.symptom_points entryC10 0 "First"
      = [⟨0 - 10, some 2, some "Onset"⟩, ⟨0 - 5, some 5, some "Progression"⟩,
         ⟨0, some 8, some "Current"⟩] ∧
    LifeChart.build_clinical_points entryC10 0 "Symptom"
      = [⟨0 - 10, 2, "Onset", "Symptom Onset"⟩, ⟨0 - 5, 5, "Progression", "Symptom Progression"⟩,
         ⟨0, 8, "Current", "Symptom Current"⟩] :=
  claim_C10_first_visit_example 0 0
